import Mathlib

/-!
Verification of the object-repository engine (`src/repo/object/repository.rs`
and `src/object/header.rs`) against its natural-language specification.

The backend block store is modelled as an association list from block IDs
(natural numbers standing for 128-bit UUIDs) to byte payloads (lists of
naturals).  Pure collaborator primitives (serialization, compression,
encryption, key derivation, chunk hashing) are abstract function parameters,
as the spec pins down only their interface contracts.
-/

namespace AcidStore

/-- Byte strings are modelled as lists of naturals. -/
abbrev Bytes := List Nat

/-- The backend store: a flat map from block IDs to payloads, modelled as an
association list (`DataStore` in the source). -/
abbrev Store := List (Nat × Bytes)

/-- `DataStore::read_block`: payload stored under `id`, or `none`. -/
def readBlock (s : Store) (id : Nat) : Option Bytes :=
  (s.find? (fun p => p.1 == id)).map (fun p => p.2)

/-- `DataStore::write_block`: create or atomically replace the block `id`. -/
def writeBlock (s : Store) (id : Nat) (b : Bytes) : Store :=
  (id, b) :: s.filter (fun p => p.1 != id)

/-- `DataStore::remove_block`: idempotent removal of block `id`. -/
def removeBlock (s : Store) (id : Nat) : Store :=
  s.filter (fun p => p.1 != id)

/-- `DataStore::list_blocks`: all block IDs currently stored. -/
def listBlocks (s : Store) : List Nat :=
  s.map (fun p => p.1)

/-- `METADATA_BLOCK_ID`: the fixed block ID of the unencrypted repository
metadata (a well-known UUID in the source, here the natural 1000). -/
def METADATA_BLOCK_ID : Nat := 1000

/-- `VERSION_BLOCK_ID`: the fixed block ID of the repository format version
marker (a well-known UUID in the source, here the natural 1001). -/
def VERSION_BLOCK_ID : Nat := 1001

/-- `VERSION_ID`: the 16 bytes of the current repository format version UUID
`036e2a8e-4b53-11ea-a6e9-57c2a822fccf`. -/
def VERSION_ID : Bytes :=
  [0x03, 0x6e, 0x2a, 0x8e, 0x4b, 0x53, 0x11, 0xea,
   0xa6, 0xe9, 0x57, 0xc2, 0xa8, 0x22, 0xfc, 0xcf]

/-- A chunk descriptor as used by the repository header (`chunk_store::Chunk`):
the hash and plaintext size of a chunk.  These are the keys of the header's
chunk map; the associated value is the backend block ID. -/
structure Chunk where
  hash : Nat
  size : Nat
deriving DecidableEq, Repr

/-- `ObjectHandle`: an ordered list of chunks plus the logical object size. -/
structure ObjectHandle where
  size : Nat
  chunks : List Chunk
deriving DecidableEq, Repr

/-- The default (empty) `ObjectHandle` inserted by `insert`. -/
def ObjectHandle.empty : ObjectHandle := { size := 0, chunks := [] }

/-- `Header` as used by `ObjectRepository` (`repo/object/header.rs`): a map
from chunk descriptors to the backend block IDs storing them, and a map from
keys to object handles.  Both maps are modelled as association lists. -/
structure RHeader (K : Type) where
  chunks : List (Chunk × Nat)
  objects : List (K × ObjectHandle)
deriving DecidableEq, Repr

/-- Association-list lookup, modelling `HashMap::get` / `contains_key`. -/
def lookupKey {K A : Type} [DecidableEq K] (l : List (K × A)) (k : K) : Option A :=
  (l.find? (fun p => decide (p.1 = k))).map (fun p => p.2)

/-- Association-list insert-or-replace, modelling `HashMap::insert`. -/
def insertKey {K A : Type} [DecidableEq K] (l : List (K × A)) (k : K) (v : A) :
    List (K × A) :=
  (k, v) :: l.filter (fun p => decide (p.1 ≠ k))

/-- The block IDs referenced by the chunks of a header: the values of the
`chunks` map (`header.chunks.values()` in `commit`). -/
def chunkBlockIds {K : Type} (h : RHeader K) : List Nat :=
  h.chunks.map (fun p => p.2)

/-- `RepositoryMetadata`: the unencrypted metadata stored at the fixed
metadata block.  Timestamps and KDF limits are naturals; `encryption` is
`true` when an encryption algorithm is configured (`Encryption::None` is
`false`); `masterKey` is the wrapped (encrypted) master key; `header` is the
block ID of the current header block. -/
structure Metadata where
  id : Nat
  chunkerBits : Nat
  compression : Nat
  encryption : Bool
  memoryLimit : Nat
  operationsLimit : Nat
  masterKey : Bytes
  salt : Bytes
  header : Nat
  creationTime : Nat
deriving DecidableEq, Repr

/-- `RepositoryState`: the in-memory state owned by an open repository. -/
structure RState (K : Type) where
  store : Store
  metadata : Metadata
  header : RHeader K
  masterKey : Bytes
deriving DecidableEq

/-- The error taxonomy of the library (`crate::Error`), restricted to the
kinds reachable from the embedded operations. -/
inductive RErr where
  | alreadyExists
  | notFound
  | corrupt
  | invalidData
  | password
  | keyType
  | unsupportedFormat
  | locked
  | store
  | io
deriving DecidableEq, Repr

/-- A backend event: one call into the `DataStore`, or a lock acquisition.
Traces of events record the order of externally visible effects. -/
inductive Event where
  | write (id : Nat) (data : Bytes)
  | remove (id : Nat)
  | readEv (id : Nat)
  | lockEv (id : Nat)
deriving DecidableEq, Repr

/-- Apply one event to a backend store (reads and lock operations do not
change the store). -/
def applyEvent (s : Store) (e : Event) : Store :=
  match e with
  | .write id data => writeBlock s id data
  | .remove id => removeBlock s id
  | .readEv _ => s
  | .lockEv _ => s

/-- Apply a trace of events to a backend store, in order. -/
def applyEvents (s : Store) (es : List Event) : Store :=
  es.foldl applyEvent s

/-- `stats().actual_size`: the sum of the `size` fields over the keys of the
header's chunk map (unique plaintext bytes). -/
def actualSize {K : Type} (h : RHeader K) : Nat :=
  (h.chunks.map (fun p => p.1.size)).sum

/-- `ObjectRepository::copy`, returning the result and the header afterwards
(the Rust method mutates `self.state.header` in place, so the second
component is the header left behind on every path):
first the `contains(dest)` check, then the `source` lookup, then the clone
and insert. -/
def copyRun {K : Type} [DecidableEq K] (h : RHeader K) (source dest : K) :
    Except RErr Unit × RHeader K :=
  if (lookupKey h.objects dest).isSome then (Except.error RErr.alreadyExists, h)
  else
    match lookupKey h.objects source with
    | none => (Except.error RErr.notFound, h)
    | some obj => (Except.ok (), { h with objects := insertKey h.objects dest obj })

/-- The header of the older archive module (`src/object/header.rs`): a map
from chunk hashes to chunk records (of an arbitrary payload type `C`, the
`Chunk` of `object/block.rs`, whose fields `clean_chunks` never inspects) and
a map from keys to objects. -/
structure OldHeader (K C O : Type) where
  chunks : List (Nat × C)
  objects : List (K × O)
deriving DecidableEq

/-- `Header::clean_chunks` (`src/object/header.rs`): rebuild the set of chunk
hashes referenced by some object and retain the chunk map to that set.
`objChunks` extracts the chunk-hash list of an object (`object.chunks` in the
source, a collection of `ChunkHash`). -/
def cleanChunks {K C O : Type} (objChunks : O → List Nat) (h : OldHeader K C O) :
    OldHeader K C O :=
  { h with chunks :=
      h.chunks.filter (fun p => h.objects.any (fun q => (objChunks q.2).contains p.1)) }

/-- `Encryption::key_size`: the key size of the configured algorithm (a fixed
positive size when encryption is on, irrelevant when off). -/
def keySize (enc : Bool) : Nat := if enc then 32 else 0

/-- `ObjectRepository::change_password`: derive a user key from the new
password and a fresh salt (here a parameter, standing for `KeySalt::generate`),
re-encrypt the in-memory master key with it, and store the salt and wrapped
key in the in-memory metadata.  `derive` abstracts `EncryptionKey::derive`
(password, salt, key size, memory limit, operations limit) and `encrypt`
abstracts `Encryption::encrypt` under the derived user key. -/
def changePassword {K : Type} (derive : Bytes → Bytes → Nat → Nat → Nat → Bytes)
    (encrypt : Bytes → Bytes → Bytes) (newPassword salt : Bytes)
    (st : RState K) : RState K :=
  let userKey := derive newPassword salt (keySize st.metadata.encryption)
      st.metadata.memoryLimit st.metadata.operationsLimit
  { st with metadata := { st.metadata with
      salt := salt
      masterKey := encrypt st.masterKey userKey } }

/-- The filter used by GC during `commit`: `list_data_blocks` drops the
metadata block, the version block and the (new) header block, and the removal
loop drops blocks that store a referenced chunk (`header.chunks.values()`). -/
def gcRemovable {K : Type} (h : RHeader K) (hid : Nat) (id : Nat) : Bool :=
  decide (id ≠ METADATA_BLOCK_ID) && decide (id ≠ VERSION_BLOCK_ID) &&
    decide (id ≠ hid) && !((chunkBlockIds h).contains id)

/-- The backend store after the two writes of `commit`: the encoded header
under the fresh block ID `hid`, then the serialized metadata (now pointing at
`hid`) under the fixed metadata block ID.  `encodeHeader` abstracts
serialize→compress→encrypt of the header; `encodeMeta` abstracts metadata
serialization. -/
def commitStore2 {K : Type} (encodeHeader : RHeader K → Bytes)
    (encodeMeta : Metadata → Bytes) (hid : Nat) (st : RState K) : Store :=
  writeBlock (writeBlock st.store hid (encodeHeader st.header))
    METADATA_BLOCK_ID (encodeMeta { st.metadata with header := hid })

/-- The ordered trace of backend effects of `ObjectRepository::commit`:
write the new header block, overwrite the fixed metadata block, then remove
every listed block that is neither a fixed block, nor the new header block,
nor holds a referenced chunk. -/
def commitEvents {K : Type} (encodeHeader : RHeader K → Bytes)
    (encodeMeta : Metadata → Bytes) (hid : Nat) (st : RState K) : List Event :=
  Event.write hid (encodeHeader st.header) ::
    Event.write METADATA_BLOCK_ID (encodeMeta { st.metadata with header := hid }) ::
    ((listBlocks (commitStore2 encodeHeader encodeMeta hid st)).filter
        (gcRemovable st.header hid)).map Event.remove

/-- The backend store a successful `commit` leaves behind. -/
def commitFinal {K : Type} (encodeHeader : RHeader K → Bytes)
    (encodeMeta : Metadata → Bytes) (hid : Nat) (st : RState K) : Store :=
  applyEvents st.store (commitEvents encodeHeader encodeMeta hid st)

/-- C1 witness: a concrete repository state with one committed chunk. -/
def demoState : RState Nat :=
  { store := [(METADATA_BLOCK_ID, [9]), (VERSION_BLOCK_ID, VERSION_ID),
      (2, [3]), (5, [1, 2]), (6, [4, 5])]
    metadata :=
      { id := 0, chunkerBits := 20, compression := 0, encryption := false
        memoryLimit := 1, operationsLimit := 1, masterKey := [], salt := []
        header := 2, creationTime := 0 }
    header :=
      { chunks := [({ hash := 1, size := 2 }, 5)]
        objects := [(10, { size := 2, chunks := [{ hash := 1, size := 2 }] })] }
    masterKey := [] }

/-- `RepositoryConfig`: the configuration passed to `create_repo`.
`encryption` is `true` unless the algorithm is `Encryption::None`. -/
structure Config where
  chunkerBits : Nat
  compression : Nat
  encryption : Bool
  memoryLimit : Nat
  operationsLimit : Nat
deriving DecidableEq, Repr

/-- The part of `ObjectRepository::create_repo` after the two password
checks: acquire the process lock under `Abort` (failure when `repoId` is
already in `locks`), check for an existing repository, generate and wrap the
master key, encode and write the empty header, write the metadata, and
finally write the version block.  Fallible backend operations are numbered
0..3 in program order (version read, header write, metadata write, version
write); `fails n = true` makes operation `n` fail with a store error, which
(by the backend's atomicity contract) leaves the store unchanged by that
operation.  `genKey` stands for `EncryptionKey::generate`, `salt` for
`KeySalt::generate`, `hid` for the fresh random header block ID, `now` for
the creation timestamp, `serializedHeader` for the serialized empty header,
and `compress` for the configured compressor, whose failure surfaces as an
I/O error.  Returns the result, the final backend store, and the trace of
completed lock/backend operations. -/
def createRepoBody (locks : List Nat) (repoId : Nat) (cfg : Config)
    (password : Option Bytes) (fails : Nat → Bool) (genKey salt : Bytes)
    (derive : Bytes → Bytes → Nat → Nat → Nat → Bytes)
    (encryptData : Bytes → Bytes → Bytes) (serializedHeader : Bytes)
    (compress : Bytes → Option Bytes) (encodeMeta : Metadata → Bytes)
    (hid now : Nat) (s : Store) : Except RErr Metadata × Store × List Event :=
  if repoId ∈ locks then (Except.error RErr.alreadyExists, s, [])
  else if fails 0 then (Except.error RErr.store, s, [Event.lockEv repoId])
  else if (readBlock s VERSION_BLOCK_ID).isSome then
    (Except.error RErr.alreadyExists, s, [Event.lockEv repoId, Event.readEv VERSION_BLOCK_ID])
  else
    match compress serializedHeader with
    | none => (Except.error RErr.io, s,
        [Event.lockEv repoId, Event.readEv VERSION_BLOCK_ID])
    | some compressedHeader =>
      if fails 1 then (Except.error RErr.store, s,
          [Event.lockEv repoId, Event.readEv VERSION_BLOCK_ID])
      else
        let masterKey : Bytes := match password with
          | some _ => genKey
          | none => []
        let encryptedHeader := encryptData compressedHeader masterKey
        let s1 := writeBlock s hid encryptedHeader
        let md : Metadata :=
          { id := repoId, chunkerBits := cfg.chunkerBits
            compression := cfg.compression, encryption := cfg.encryption
            memoryLimit := cfg.memoryLimit, operationsLimit := cfg.operationsLimit
            masterKey :=
              match password with
              | some pw => encryptData masterKey
                  (derive pw salt (keySize cfg.encryption) cfg.memoryLimit
                    cfg.operationsLimit)
              | none => []
            salt := salt, header := hid, creationTime := now }
        if fails 2 then (Except.error RErr.store, s1,
            [Event.lockEv repoId, Event.readEv VERSION_BLOCK_ID,
             Event.write hid encryptedHeader])
        else
          let s2 := writeBlock s1 METADATA_BLOCK_ID (encodeMeta md)
          if fails 3 then (Except.error RErr.store, s2,
              [Event.lockEv repoId, Event.readEv VERSION_BLOCK_ID,
               Event.write hid encryptedHeader,
               Event.write METADATA_BLOCK_ID (encodeMeta md)])
          else (Except.ok md, writeBlock s2 VERSION_BLOCK_ID VERSION_ID,
              [Event.lockEv repoId, Event.readEv VERSION_BLOCK_ID,
               Event.write hid encryptedHeader,
               Event.write METADATA_BLOCK_ID (encodeMeta md),
               Event.write VERSION_BLOCK_ID VERSION_ID])

/-- `ObjectRepository::create_repo`: the two password checks (no password
while encryption is configured, or a password while it is not, both yield
`Error::Password` before anything else happens), followed by the body. -/
def createRepo (locks : List Nat) (repoId : Nat) (cfg : Config)
    (password : Option Bytes) (fails : Nat → Bool) (genKey salt : Bytes)
    (derive : Bytes → Bytes → Nat → Nat → Nat → Bytes)
    (encryptData : Bytes → Bytes → Bytes) (serializedHeader : Bytes)
    (compress : Bytes → Option Bytes) (encodeMeta : Metadata → Bytes)
    (hid now : Nat) (s : Store) : Except RErr Metadata × Store × List Event :=
  if password.isNone && cfg.encryption then (Except.error RErr.password, s, [])
  else if password.isSome && !cfg.encryption then (Except.error RErr.password, s, [])
  else createRepoBody locks repoId cfg password fails genKey salt derive
    encryptData serializedHeader compress encodeMeta hid now s

/-- A configuration with encryption enabled, for concrete instantiations. -/
def demoConfig : Config :=
  { chunkerBits := 20, compression := 0, encryption := true
    memoryLimit := 1, operationsLimit := 1 }

/-- The reason a header deserialization can fail: the stored key type
differs from the requested type parameter `K`, or the bytes are malformed for
some other reason.  The source's `from_read` reports failure without
distinguishing the two. -/
inductive DeserErr where
  | keyType
  | other
deriving DecidableEq, Repr

/-- The header-loading tail of `ObjectRepository::open_repo`: read the header
block (`metadata.header`), decrypt it with the master key, decompress, and
deserialize.  A missing block, a decryption failure, or a decompression
failure yields `Corrupt`; the `map_err` on `from_read` turns every
deserialization failure into `KeyType`. -/
def openDecodeHeader {K : Type} (decrypt : Bytes → Option Bytes)
    (decompress : Bytes → Option Bytes)
    (deserialize : Bytes → Except DeserErr (RHeader K))
    (s : Store) (headerId : Nat) : Except RErr (RHeader K) :=
  match readBlock s headerId with
  | none => Except.error RErr.corrupt
  | some encryptedHeader =>
    match decrypt encryptedHeader with
    | none => Except.error RErr.corrupt
    | some compressedHeader =>
      match decompress compressedHeader with
      | none => Except.error RErr.corrupt
      | some serializedHeader =>
        match deserialize serializedHeader with
        | Except.error _ => Except.error RErr.keyType
        | Except.ok header => Except.ok header

/-- A chunk descriptor for concrete instantiations. -/
def demoChunk : Chunk := { hash := 1, size := 4 }

/-- An object handle for concrete instantiations. -/
def demoHandle : ObjectHandle := { size := 4, chunks := [demoChunk] }

/-- A header with one object and one chunk, the destination key `11` free. -/
def demoHeader : RHeader Nat :=
  { chunks := [(demoChunk, 77)], objects := [(10, demoHandle)] }

/-- A header in which the destination key `11` is taken and the source key
`10` is absent. -/
def demoHeaderD : RHeader Nat :=
  { chunks := [], objects := [(11, demoHandle)] }

/-- The outcome of `ChunkStore::read_chunk` as observed by `verify`: the
decoded plaintext, an authentication failure (`Error::InvalidData`), or any
other error, which `verify` propagates. -/
inductive ReadRes where
  | ok (data : Bytes)
  | invalidData
  | storeErr
deriving DecidableEq, Repr

/-- A chunk counts as corrupt for `verify` when reading it fails ciphertext
authentication, or the returned length differs from the recorded size, or
the recomputed hash differs from the recorded hash. -/
def corruptB (read : Chunk → ReadRes) (hash : Bytes → Nat) (c : Chunk) : Bool :=
  match read c with
  | ReadRes.ok d => decide (d.length ≠ c.size) || decide (hash d ≠ c.hash)
  | ReadRes.invalidData => true
  | ReadRes.storeErr => false

/-- The first loop of `ObjectRepository::verify`: read each chunk of the
header's chunk map, collecting the hashes of corrupt chunks; a read failure
other than `InvalidData` aborts with that error (modelled as `store`). -/
def collectCorrupt (read : Chunk → ReadRes) (hash : Bytes → Nat) :
    List Chunk → Except RErr (List Nat)
  | [] => Except.ok []
  | c :: rest =>
    match read c with
    | ReadRes.storeErr => Except.error RErr.store
    | ReadRes.invalidData =>
      match collectCorrupt read hash rest with
      | Except.error e => Except.error e
      | Except.ok r => Except.ok (c.hash :: r)
    | ReadRes.ok d =>
      if d.length ≠ c.size ∨ hash d ≠ c.hash then
        match collectCorrupt read hash rest with
        | Except.error e => Except.error e
        | Except.ok r => Except.ok (c.hash :: r)
      else collectCorrupt read hash rest

/-- `ObjectRepository::verify`: collect corrupt chunk hashes over the keys of
the chunk map; if none are corrupt return the empty set at once (the second
component records whether the object map was scanned); otherwise report every
key one of whose chunks has a corrupt hash. -/
def verifyRepo {K : Type} [DecidableEq K] (read : Chunk → ReadRes)
    (hash : Bytes → Nat) (h : RHeader K) : Except RErr (List K × Bool) :=
  match collectCorrupt read hash (h.chunks.map (fun p => p.1)) with
  | Except.error e => Except.error e
  | Except.ok corrupt =>
    if corrupt.isEmpty then Except.ok ([], false)
    else Except.ok
      ((h.objects.filter
          (fun kv => kv.2.chunks.any (fun c => corrupt.contains c.hash))).map
        (fun kv => kv.1), true)

/-- A chunk whose recorded size matches the demo read result below. -/
def demoChunkV : Chunk := { hash := 1, size := 2 }

/-- A header with one intact chunk and one object, for the verify witness. -/
def demoHeaderV : RHeader Nat :=
  { chunks := [(demoChunkV, 77)]
    objects := [(10, { size := 2, chunks := [demoChunkV] })] }

/-- A chunk reader returning two bytes for every chunk. -/
def demoRead : Chunk → ReadRes := fun _ => ReadRes.ok [7, 8]

/-- A chunk hasher matching `demoChunkV`. -/
def demoHash : Bytes → Nat := fun _ => 1

theorem find?_filter_ne (s : Store) (i j : Nat) (hji : j ≠ i) :
    (s.filter (fun p => p.1 != i)).find? (fun p => p.1 == j)
      = s.find? (fun p => p.1 == j) := by
  induction s with
  | nil => rfl
  | cons hd tl ih =>
    by_cases hhd : hd.1 = j <;> by_cases hi : hd.1 = i <;>
      simp_all [List.filter_cons, List.find?_cons]

theorem find?_filter_self (s : Store) (i : Nat) :
    (s.filter (fun p => p.1 != i)).find? (fun p => p.1 == i) = none := by
  induction s with
  | nil => rfl
  | cons hd tl ih =>
    by_cases hi : hd.1 = i <;> simp_all [List.filter_cons, List.find?_cons]

theorem readBlock_writeBlock (s : Store) (i : Nat) (b : Bytes) (j : Nat) :
    readBlock (writeBlock s i b) j = if j = i then some b else readBlock s j := by
  unfold readBlock writeBlock
  by_cases h : j = i
  · subst h
    simp [List.find?_cons]
  · have h2 : ((i : Nat) == j) = false := by
      simp only [beq_eq_false_iff_ne, ne_eq]
      exact fun hc => h hc.symm
    rw [if_neg h]
    simp only [List.find?_cons, h2]
    rw [find?_filter_ne s i j h]

theorem readBlock_removeBlock (s : Store) (i j : Nat) :
    readBlock (removeBlock s i) j = if j = i then none else readBlock s j := by
  unfold readBlock removeBlock
  by_cases h : j = i
  · subst h
    rw [if_pos rfl, find?_filter_self]
    rfl
  · rw [if_neg h, find?_filter_ne s i j h]

theorem mem_listBlocks_iff (s : Store) (id : Nat) :
    id ∈ listBlocks s ↔ (readBlock s id).isSome := by
  unfold listBlocks readBlock
  induction s with
  | nil => simp
  | cons hd tl ih =>
    by_cases h : hd.1 = id
    · simp [List.find?, h]
    · have h4 : (hd.1 == id) = false := by simp [h]
      simp [List.find?, h4, ih, h]
      tauto

theorem lookupKey_insertKey {K A : Type} [DecidableEq K]
    (l : List (K × A)) (k : K) (v : A) (j : K) :
    lookupKey (insertKey l k v) j = if j = k then some v else lookupKey l j := by
  unfold lookupKey insertKey
  by_cases h : j = k
  · subst h
    simp [List.find?_cons]
  · rw [if_neg h]
    have h2 : (decide (k = j)) = false := by
      simp only [decide_eq_false_iff_not]
      exact fun hc => h hc.symm
    simp only [List.find?_cons, h2]
    induction l with
    | nil => rfl
    | cons hd tl ih =>
      by_cases hhd : hd.1 = j <;> by_cases hk : hd.1 = k <;>
        simp_all [List.filter_cons, List.find?_cons]

theorem applyEvents_nil (s : Store) : applyEvents s [] = s := rfl

theorem applyEvents_cons (s : Store) (e : Event) (es : List Event) :
    applyEvents s (e :: es) = applyEvents (applyEvent s e) es := rfl

/-- Reading after a pure removal trace: a block survives exactly when its ID
is not removed by the trace. -/
theorem readBlock_applyEvents_removes (rs : List Nat) :
    ∀ (s : Store) (j : Nat),
      readBlock (applyEvents s (rs.map Event.remove)) j
        = if j ∈ rs then none else readBlock s j := by
  induction rs with
  | nil => intro s j; simp [applyEvents_nil]
  | cons r rest ih =>
    intro s j
    simp only [List.map_cons, applyEvents_cons]
    rw [ih]
    by_cases hj : j ∈ rest
    · simp [hj]
    · rw [if_neg hj]
      by_cases hr : j = r
      · subst hr
        simp [applyEvent, readBlock_removeBlock]
      · rw [if_neg (by simp [hr, hj])]
        simp [applyEvent, readBlock_removeBlock, hr]

/-- C6: after `clean_chunks`, a chunk hash is in the chunk map iff it was
there before and some object references it; the objects map is unchanged. -/
theorem clean_chunks_retains_exactly_referenced {K C O : Type}
    (objChunks : O → List Nat) (h : OldHeader K C O) (hsh : Nat) (c : C) :
    (((hsh, c) ∈ (cleanChunks objChunks h).chunks ↔
        ((hsh, c) ∈ h.chunks ∧ ∃ kv ∈ h.objects, hsh ∈ objChunks kv.2))) ∧
      (cleanChunks objChunks h).objects = h.objects := by
  constructor
  · unfold cleanChunks
    simp only [List.mem_filter, List.any_eq_true, List.contains_iff_exists_mem_beq,
      beq_iff_eq]
    constructor
    · rintro ⟨h1, kv, hkv, x, hx, hax⟩
      exact ⟨h1, kv, hkv, hax ▸ hx⟩
    · rintro ⟨h1, kv, hkv, hx⟩
      exact ⟨h1, kv, hkv, hsh, hx, rfl⟩
  · rfl

/-- C7: `copy` fails `NotFound` when the source is absent (and the
destination check does not fire), fails `AlreadyExists` when the destination
is present, and on success binds the destination to the source's handle while
leaving the source binding, the chunk map, and `actual_size` unchanged. -/
theorem copy_semantics {K : Type} [DecidableEq K] (h : RHeader K) (s d : K) :
    (lookupKey h.objects d = none → lookupKey h.objects s = none →
      copyRun h s d = (Except.error RErr.notFound, h)) ∧
    (∀ o, lookupKey h.objects d = some o →
      copyRun h s d = (Except.error RErr.alreadyExists, h)) ∧
    (∀ obj, lookupKey h.objects d = none → lookupKey h.objects s = some obj →
      (copyRun h s d).1 = Except.ok () ∧
      lookupKey (copyRun h s d).2.objects d = some obj ∧
      lookupKey (copyRun h s d).2.objects s = some obj ∧
      (copyRun h s d).2.chunks = h.chunks ∧
      actualSize (copyRun h s d).2 = actualSize h) := by
  refine ⟨fun hd hs => ?_, fun o hd => ?_, fun obj hd hs => ?_⟩
  · unfold copyRun
    rw [hd, hs]
    rfl
  · unfold copyRun
    rw [hd]
    rfl
  · have hsd : s ≠ d := by
      intro hc
      rw [hc, hd] at hs
      exact Option.noConfusion hs
    have hrun : copyRun h s d
        = (Except.ok (), { h with objects := insertKey h.objects d obj }) := by
      unfold copyRun
      rw [hd, hs]
      rfl
    rw [hrun]
    refine ⟨rfl, ?_, ?_, rfl, rfl⟩
    · show lookupKey (insertKey h.objects d obj) d = some obj
      rw [lookupKey_insertKey]
      simp
    · show lookupKey (insertKey h.objects d obj) s = some obj
      rw [lookupKey_insertKey, if_neg hsd, hs]

/-- C10: the destination-presence check of `copy` precedes the source check,
so a present destination yields `AlreadyExists` regardless of the source; and
every error return leaves the header unchanged. -/
theorem copy_dest_check_first {K : Type} [DecidableEq K] (h : RHeader K) (s d : K) :
    ((lookupKey h.objects d).isSome →
      (copyRun h s d).1 = Except.error RErr.alreadyExists) ∧
    (∀ e, (copyRun h s d).1 = Except.error e → (copyRun h s d).2 = h) := by
  constructor
  · intro hd
    unfold copyRun
    rw [if_pos hd]
  · intro e he
    unfold copyRun at he ⊢
    by_cases hd : (lookupKey h.objects d).isSome
    · rw [if_pos hd]
    · rw [if_neg hd] at he ⊢
      cases hs : lookupKey h.objects s with
      | none => rfl
      | some obj =>
        rw [hs] at he
        exact Except.noConfusion he

/-- C9: `change_password` rewrites only the metadata's salt and wrapped
master key (re-wrapping the unchanged in-memory master key); the backend
store, the header, the plaintext master key, and every other metadata field
are untouched. -/
theorem change_password_frame {K : Type}
    (derive : Bytes → Bytes → Nat → Nat → Nat → Bytes)
    (encrypt : Bytes → Bytes → Bytes) (newPassword salt : Bytes) (st : RState K) :
    (changePassword derive encrypt newPassword salt st).store = st.store ∧
    (changePassword derive encrypt newPassword salt st).header = st.header ∧
    (changePassword derive encrypt newPassword salt st).masterKey = st.masterKey ∧
    (changePassword derive encrypt newPassword salt st).metadata.salt = salt ∧
    (changePassword derive encrypt newPassword salt st).metadata.masterKey
      = encrypt st.masterKey
          (derive newPassword salt (keySize st.metadata.encryption)
            st.metadata.memoryLimit st.metadata.operationsLimit) ∧
    (changePassword derive encrypt newPassword salt st).metadata.id = st.metadata.id ∧
    (changePassword derive encrypt newPassword salt st).metadata.chunkerBits
      = st.metadata.chunkerBits ∧
    (changePassword derive encrypt newPassword salt st).metadata.compression
      = st.metadata.compression ∧
    (changePassword derive encrypt newPassword salt st).metadata.encryption
      = st.metadata.encryption ∧
    (changePassword derive encrypt newPassword salt st).metadata.memoryLimit
      = st.metadata.memoryLimit ∧
    (changePassword derive encrypt newPassword salt st).metadata.operationsLimit
      = st.metadata.operationsLimit ∧
    (changePassword derive encrypt newPassword salt st).metadata.header
      = st.metadata.header ∧
    (changePassword derive encrypt newPassword salt st).metadata.creationTime
      = st.metadata.creationTime :=
  ⟨rfl, rfl, rfl, rfl, rfl, rfl, rfl, rfl, rfl, rfl, rfl, rfl, rfl⟩

theorem commitFinal_eq_removals {K : Type} (encodeHeader : RHeader K → Bytes)
    (encodeMeta : Metadata → Bytes) (hid : Nat) (st : RState K) :
    commitFinal encodeHeader encodeMeta hid st
      = applyEvents (commitStore2 encodeHeader encodeMeta hid st)
          (((listBlocks (commitStore2 encodeHeader encodeMeta hid st)).filter
              (gcRemovable st.header hid)).map Event.remove) := rfl

/-- C1: in the commit trace the new header block is written (to a block ID
distinct from the fixed metadata block) before the metadata block, every
prefix of the trace that does not contain the metadata write leaves the
on-disk metadata unchanged and keeps every previously present block present,
and no block is removed before the metadata block has been written. -/
theorem commit_metadata_write_is_commit_point {K : Type}
    (encodeHeader : RHeader K → Bytes) (encodeMeta : Metadata → Bytes)
    (hid : Nat) (st : RState K) (hfresh : hid ≠ METADATA_BLOCK_ID) :
    ((commitEvents encodeHeader encodeMeta hid st).take 2
        = [Event.write hid (encodeHeader st.header),
           Event.write METADATA_BLOCK_ID
             (encodeMeta { st.metadata with header := hid })]) ∧
    (∀ n, (∀ b, Event.write METADATA_BLOCK_ID b
          ∉ (commitEvents encodeHeader encodeMeta hid st).take n) →
      readBlock (applyEvents st.store
          ((commitEvents encodeHeader encodeMeta hid st).take n)) METADATA_BLOCK_ID
        = readBlock st.store METADATA_BLOCK_ID ∧
      ∀ id, (readBlock st.store id).isSome →
        (readBlock (applyEvents st.store
          ((commitEvents encodeHeader encodeMeta hid st).take n)) id).isSome) ∧
    (∀ n, (∃ i, Event.remove i ∈ (commitEvents encodeHeader encodeMeta hid st).take n) →
      ∃ b, Event.write METADATA_BLOCK_ID b
        ∈ (commitEvents encodeHeader encodeMeta hid st).take n) := by
  refine ⟨rfl, ?_, ?_⟩
  · intro n hno
    match n with
    | 0 =>
      constructor
      · rfl
      · intro id hs
        exact hs
    | 1 =>
      constructor
      · show readBlock (writeBlock st.store hid (encodeHeader st.header))
            METADATA_BLOCK_ID = readBlock st.store METADATA_BLOCK_ID
        rw [readBlock_writeBlock]
        rw [if_neg (fun hc => hfresh hc.symm)]
      · intro id hs
        show (readBlock (writeBlock st.store hid (encodeHeader st.header)) id).isSome
        rw [readBlock_writeBlock]
        by_cases hidq : id = hid
        · rw [if_pos hidq]
          rfl
        · rw [if_neg hidq]
          exact hs
    | (m + 2) =>
      exfalso
      refine hno (encodeMeta { st.metadata with header := hid }) ?_
      show Event.write METADATA_BLOCK_ID _ ∈
        Event.write hid (encodeHeader st.header) ::
          Event.write METADATA_BLOCK_ID (encodeMeta { st.metadata with header := hid }) ::
          List.take m _
      exact List.mem_cons_of_mem _ (List.mem_cons_self _ _)
  · intro n hrem
    match n with
    | 0 =>
      obtain ⟨i, hi⟩ := hrem
      exact absurd hi (List.not_mem_nil _)
    | 1 =>
      obtain ⟨i, hi⟩ := hrem
      have : Event.remove i ∈ [Event.write hid (encodeHeader st.header)] := hi
      simp at this
    | (m + 2) =>
      refine ⟨encodeMeta { st.metadata with header := hid }, ?_⟩
      show Event.write METADATA_BLOCK_ID _ ∈
        Event.write hid (encodeHeader st.header) ::
          Event.write METADATA_BLOCK_ID (encodeMeta { st.metadata with header := hid }) ::
          List.take m _
      exact List.mem_cons_of_mem _ (List.mem_cons_self _ _)

theorem commit_metadata_write_is_commit_point_witness :
    readBlock (applyEvents demoState.store
        ((commitEvents (fun _ => [8]) (fun _ => [9]) 7 demoState).take 1))
        METADATA_BLOCK_ID
      = readBlock demoState.store METADATA_BLOCK_ID :=
  (((commit_metadata_write_is_commit_point (fun _ => [8]) (fun _ => [9]) 7 demoState
      (by decide)).2.1) 1 (by
        intro b hb
        have h1 : (commitEvents (fun _ => [8]) (fun _ => [9]) 7 demoState).take 1
            = [Event.write 7 [8]] := rfl
        rw [h1] at hb
        simp only [List.mem_singleton, Event.write.injEq] at hb
        exact absurd hb.1 (by decide))).1

/-- C2: a block present after the metadata write is absent from the store a
successful commit leaves behind exactly when it is neither the metadata
block, nor the version block, nor the new header block, nor a block holding a
chunk of the committed header; every kept block survives with its contents. -/
theorem commit_gc_removes_exactly_unreferenced {K : Type}
    (encodeHeader : RHeader K → Bytes) (encodeMeta : Metadata → Bytes)
    (hid : Nat) (st : RState K) (id : Nat)
    (hpresent : (readBlock (commitStore2 encodeHeader encodeMeta hid st) id).isSome) :
    (readBlock (commitFinal encodeHeader encodeMeta hid st) id = none ↔
      (id ≠ METADATA_BLOCK_ID ∧ id ≠ VERSION_BLOCK_ID ∧ id ≠ hid ∧
        id ∉ chunkBlockIds st.header)) ∧
    ((id = METADATA_BLOCK_ID ∨ id = VERSION_BLOCK_ID ∨ id = hid ∨
        id ∈ chunkBlockIds st.header) →
      readBlock (commitFinal encodeHeader encodeMeta hid st) id
        = readBlock (commitStore2 encodeHeader encodeMeta hid st) id) := by
  have hread : readBlock (commitFinal encodeHeader encodeMeta hid st) id
      = if id ∈ (listBlocks (commitStore2 encodeHeader encodeMeta hid st)).filter
            (gcRemovable st.header hid)
        then none
        else readBlock (commitStore2 encodeHeader encodeMeta hid st) id := by
    rw [commitFinal_eq_removals, readBlock_applyEvents_removes]
  have hlist : id ∈ listBlocks (commitStore2 encodeHeader encodeMeta hid st) :=
    (mem_listBlocks_iff _ _).mpr hpresent
  have hmemfilter : id ∈ (listBlocks (commitStore2 encodeHeader encodeMeta hid st)).filter
        (gcRemovable st.header hid)
      ↔ gcRemovable st.header hid id = true := by
    rw [List.mem_filter]
    exact ⟨fun h => h.2, fun h => ⟨hlist, h⟩⟩
  have hgc : gcRemovable st.header hid id = true ↔
      (id ≠ METADATA_BLOCK_ID ∧ id ≠ VERSION_BLOCK_ID ∧ id ≠ hid ∧
        id ∉ chunkBlockIds st.header) := by
    unfold gcRemovable
    simp [List.contains_iff_exists_mem_beq, and_assoc]
  constructor
  · rw [hread]
    by_cases hmem : id ∈ (listBlocks (commitStore2 encodeHeader encodeMeta hid st)).filter
        (gcRemovable st.header hid)
    · rw [if_pos hmem]
      simp only [true_iff]
      exact hgc.mp (hmemfilter.mp hmem)
    · rw [if_neg hmem]
      constructor
      · intro hnone
        exact absurd hnone (by
          intro hc
          rw [hc] at hpresent
          exact Bool.noConfusion hpresent)
      · intro hkeep
        exact absurd (hmemfilter.mpr (hgc.mpr hkeep)) hmem
  · intro hkeep
    rw [hread, if_neg]
    intro hmem
    have := hgc.mp (hmemfilter.mp hmem)
    rcases hkeep with h | h | h | h
    · exact this.1 h
    · exact this.2.1 h
    · exact this.2.2.1 h
    · exact this.2.2.2 h

theorem commit_gc_removes_exactly_unreferenced_witness :
    readBlock (commitFinal (fun _ => [8]) (fun _ => [9]) 7 demoState) 6 = none :=
  ((commit_gc_removes_exactly_unreferenced (fun _ => [8]) (fun _ => [9]) 7 demoState 6
      (by decide)).1).mpr (by decide)

theorem createRepoBody_ne_password (locks : List Nat) (repoId : Nat) (cfg : Config)
    (password : Option Bytes) (fails : Nat → Bool) (genKey salt : Bytes)
    (derive : Bytes → Bytes → Nat → Nat → Nat → Bytes)
    (encryptData : Bytes → Bytes → Bytes) (serializedHeader : Bytes)
    (compress : Bytes → Option Bytes) (encodeMeta : Metadata → Bytes)
    (hid now : Nat) (s : Store) :
    (createRepoBody locks repoId cfg password fails genKey salt derive
        encryptData serializedHeader compress encodeMeta hid now s).1
      ≠ Except.error RErr.password := by
  unfold createRepoBody
  by_cases c3 : repoId ∈ locks
  · simp [c3]
  · rw [if_neg c3]
    by_cases c4 : fails 0 = true
    · simp [c4]
    · rw [if_neg c4]
      by_cases c5 : (readBlock s VERSION_BLOCK_ID).isSome = true
      · simp [c5]
      · rw [if_neg c5]
        cases hcomp : compress serializedHeader with
        | none => simp
        | some compressedHeader =>
          dsimp only
          by_cases c6 : fails 1 = true
          · simp [c6]
          · rw [if_neg c6]
            by_cases c7 : fails 2 = true
            · simp [c7]
            · rw [if_neg c7]
              by_cases c8 : fails 3 = true
              · simp [c8]
              · simp [c8]

/-- C5: `create_repo` returns `Password` exactly when the supplied password's
presence disagrees with the configured encryption, and in that case it
returns with an untouched backend and an empty effect trace: before any lock
acquisition or backend access. -/
theorem create_password_error_iff_mismatch (locks : List Nat) (repoId : Nat)
    (cfg : Config) (password : Option Bytes) (fails : Nat → Bool)
    (genKey salt : Bytes) (derive : Bytes → Bytes → Nat → Nat → Nat → Bytes)
    (encryptData : Bytes → Bytes → Bytes) (serializedHeader : Bytes)
    (compress : Bytes → Option Bytes) (encodeMeta : Metadata → Bytes)
    (hid now : Nat) (s : Store) :
    ((createRepo locks repoId cfg password fails genKey salt derive
        encryptData serializedHeader compress encodeMeta hid now s).1
      = Except.error RErr.password ↔
      ((password = none ∧ cfg.encryption = true) ∨
        (password ≠ none ∧ cfg.encryption = false))) ∧
    (((password = none ∧ cfg.encryption = true) ∨
        (password ≠ none ∧ cfg.encryption = false)) →
      createRepo locks repoId cfg password fails genKey salt derive
          encryptData serializedHeader compress encodeMeta hid now s
        = (Except.error RErr.password, s, [])) := by
  have hmm : (password.isNone && cfg.encryption) = true ∨
      (password.isSome && !cfg.encryption) = true ↔
      ((password = none ∧ cfg.encryption = true) ∨
        (password ≠ none ∧ cfg.encryption = false)) := by
    cases password <;> cases hc : cfg.encryption <;> simp
  constructor
  · constructor
    · intro hp
      rw [← hmm]
      by_contra hno
      push_neg at hno
      unfold createRepo at hp
      rw [if_neg (by simpa using hno.1), if_neg (by simpa using hno.2)] at hp
      exact createRepoBody_ne_password locks repoId cfg password fails genKey salt
        derive encryptData serializedHeader compress encodeMeta hid now s hp
    · intro hcase
      rcases (hmm.mpr hcase) with h | h
      · unfold createRepo
        rw [if_pos h]
      · unfold createRepo
        by_cases h1 : (password.isNone && cfg.encryption) = true
        · rw [if_pos h1]
        · rw [if_neg h1, if_pos h]
  · intro hcase
    rcases (hmm.mpr hcase) with h | h
    · unfold createRepo
      rw [if_pos h]
    · unfold createRepo
      by_cases h1 : (password.isNone && cfg.encryption) = true
      · rw [if_pos h1]
      · rw [if_neg h1, if_pos h]

/-- C4: starting from a backend without a version block, every failing run of
`create_repo` (password mismatch, lock held, repository present, compression
failure, or a backend write error at any of the numbered operations) leaves
the backend still without a version block, and in every successful run the
version-block write is the last event of the trace. -/
theorem create_version_written_last (locks : List Nat) (repoId : Nat)
    (cfg : Config) (password : Option Bytes) (fails : Nat → Bool)
    (genKey salt : Bytes) (derive : Bytes → Bytes → Nat → Nat → Nat → Bytes)
    (encryptData : Bytes → Bytes → Bytes) (serializedHeader : Bytes)
    (compress : Bytes → Option Bytes) (encodeMeta : Metadata → Bytes)
    (hid now : Nat) (s : Store)
    (hv : readBlock s VERSION_BLOCK_ID = none) (hh : hid ≠ VERSION_BLOCK_ID) :
    (∀ e, (createRepo locks repoId cfg password fails genKey salt derive
          encryptData serializedHeader compress encodeMeta hid now s).1
        = Except.error e →
      readBlock (createRepo locks repoId cfg password fails genKey salt derive
          encryptData serializedHeader compress encodeMeta hid now s).2.1
          VERSION_BLOCK_ID = none) ∧
    (∀ md, (createRepo locks repoId cfg password fails genKey salt derive
          encryptData serializedHeader compress encodeMeta hid now s).1
        = Except.ok md →
      (createRepo locks repoId cfg password fails genKey salt derive
          encryptData serializedHeader compress encodeMeta hid now s).2.2.getLast?
        = some (Event.write VERSION_BLOCK_ID VERSION_ID)) := by
  have hs1 : ∀ b : Bytes,
      readBlock (writeBlock s hid b) VERSION_BLOCK_ID = none := by
    intro b
    rw [readBlock_writeBlock, if_neg (fun hc => hh hc.symm)]
    exact hv
  have hs2 : ∀ (b b2 : Bytes),
      readBlock (writeBlock (writeBlock s hid b) METADATA_BLOCK_ID b2)
        VERSION_BLOCK_ID = none := by
    intro b b2
    rw [readBlock_writeBlock, if_neg (by decide)]
    exact hs1 b
  unfold createRepo createRepoBody
  by_cases c1 : (password.isNone && cfg.encryption) = true
  · rw [if_pos c1]
    exact ⟨fun e _ => hv, fun md hmd => Except.noConfusion hmd⟩
  · rw [if_neg c1]
    by_cases c2 : (password.isSome && !cfg.encryption) = true
    · rw [if_pos c2]
      exact ⟨fun e _ => hv, fun md hmd => Except.noConfusion hmd⟩
    · rw [if_neg c2]
      by_cases c3 : repoId ∈ locks
      · rw [if_pos c3]
        exact ⟨fun e _ => hv, fun md hmd => Except.noConfusion hmd⟩
      · rw [if_neg c3]
        by_cases c4 : fails 0 = true
        · rw [if_pos c4]
          exact ⟨fun e _ => hv, fun md hmd => Except.noConfusion hmd⟩
        · rw [if_neg c4]
          by_cases c5 : (readBlock s VERSION_BLOCK_ID).isSome = true
          · rw [if_pos c5]
            exact ⟨fun e _ => hv, fun md hmd => Except.noConfusion hmd⟩
          · rw [if_neg c5]
            cases hcomp : compress serializedHeader with
            | none =>
              exact ⟨fun e _ => hv, fun md hmd => Except.noConfusion hmd⟩
            | some compressedHeader =>
              dsimp only
              by_cases c6 : fails 1 = true
              · rw [if_pos c6]
                exact ⟨fun e _ => hv, fun md hmd => Except.noConfusion hmd⟩
              · rw [if_neg c6]
                by_cases c7 : fails 2 = true
                · rw [if_pos c7]
                  exact ⟨fun e _ => hs1 _, fun md hmd => Except.noConfusion hmd⟩
                · rw [if_neg c7]
                  by_cases c8 : fails 3 = true
                  · rw [if_pos c8]
                    exact ⟨fun e _ => hs2 _ _, fun md hmd => Except.noConfusion hmd⟩
                  · rw [if_neg c8]
                    exact ⟨fun e he => Except.noConfusion he, fun md _ => rfl⟩

theorem create_version_written_last_witness :
    readBlock (createRepo [3] 3 demoConfig (some [1]) (fun _ => false) [9] [4]
        (fun _ _ _ _ _ => [5]) (fun d _ => d) [2] (fun b => some b) (fun _ => [6])
        7 0 []).2.1 VERSION_BLOCK_ID = none :=
  (create_version_written_last [3] 3 demoConfig (some [1]) (fun _ => false) [9] [4]
      (fun _ _ _ _ _ => [5]) (fun d _ => d) [2] (fun b => some b) (fun _ => [6])
      7 0 [] rfl (by decide)).1 RErr.alreadyExists rfl

theorem create_password_error_iff_mismatch_witness :
    createRepo [] 0 demoConfig none (fun _ => false) [] []
        (fun _ _ _ _ _ => []) (fun d _ => d) [] (fun b => some b) (fun _ => [])
        7 0 []
      = (Except.error RErr.password, [], []) :=
  (create_password_error_iff_mismatch [] 0 demoConfig none (fun _ => false) [] []
      (fun _ _ _ _ _ => []) (fun d _ => d) [] (fun b => some b) (fun _ => [])
      7 0 []).2 (Or.inl ⟨rfl, rfl⟩)

/-- C3 counterexample: with a deserializer whose only failure cause is
`other` (not a key-type mismatch) and read/decrypt/decompress all succeeding,
`open` still reports `KeyType`, where the claim demands `Corrupt`. -/
theorem open_keytype_not_only_mismatch_cex :
    openDecodeHeader (fun b => some b) (fun b => some b)
        (fun _ => (Except.error DeserErr.other : Except DeserErr (RHeader Nat)))
        [(5, [0])] 5
      = Except.error RErr.keyType ∧
    (fun _ => (Except.error DeserErr.other : Except DeserErr (RHeader Nat))) [0]
      = Except.error DeserErr.other ∧
    DeserErr.other ≠ DeserErr.keyType :=
  ⟨rfl, rfl, fun hc => DeserErr.noConfusion hc⟩

/-- C3 amended: once the header block is read successfully, a decryption or
decompression failure yields `Corrupt`, while ANY deserialization failure of
the header bytes — whether or not it is due to a key-type mismatch — yields
`KeyType`; success returns the header. -/
theorem open_header_error_mapping {K : Type} (decrypt : Bytes → Option Bytes)
    (decompress : Bytes → Option Bytes)
    (deserialize : Bytes → Except DeserErr (RHeader K))
    (s : Store) (headerId : Nat) (encryptedHeader : Bytes)
    (hread : readBlock s headerId = some encryptedHeader) :
    (decrypt encryptedHeader = none →
      openDecodeHeader decrypt decompress deserialize s headerId
        = Except.error RErr.corrupt) ∧
    (∀ compressedHeader, decrypt encryptedHeader = some compressedHeader →
      decompress compressedHeader = none →
      openDecodeHeader decrypt decompress deserialize s headerId
        = Except.error RErr.corrupt) ∧
    (∀ compressedHeader serializedHeader e,
      decrypt encryptedHeader = some compressedHeader →
      decompress compressedHeader = some serializedHeader →
      deserialize serializedHeader = Except.error e →
      openDecodeHeader decrypt decompress deserialize s headerId
        = Except.error RErr.keyType) ∧
    (∀ compressedHeader serializedHeader header,
      decrypt encryptedHeader = some compressedHeader →
      decompress compressedHeader = some serializedHeader →
      deserialize serializedHeader = Except.ok header →
      openDecodeHeader decrypt decompress deserialize s headerId
        = Except.ok header) := by
  refine ⟨fun h1 => ?_, fun c h1 h2 => ?_, fun c ser e h1 h2 h3 => ?_,
    fun c ser hd h1 h2 h3 => ?_⟩ <;>
    unfold openDecodeHeader
  · simp [hread, h1]
  · simp [hread, h1, h2]
  · simp [hread, h1, h2, h3]
  · simp [hread, h1, h2, h3]

theorem open_header_error_mapping_witness :
    openDecodeHeader (fun b => some b) (fun b => some b)
        (fun _ => (Except.error DeserErr.keyType : Except DeserErr (RHeader Nat)))
        [(6, [1])] 6
      = Except.error RErr.keyType :=
  (open_header_error_mapping (fun b => some b) (fun b => some b)
      (fun _ => (Except.error DeserErr.keyType : Except DeserErr (RHeader Nat)))
      [(6, [1])] 6 [1] rfl).2.2.1 [1] [1] DeserErr.keyType rfl rfl rfl

theorem copy_semantics_witness :
    (copyRun demoHeader 10 11).1 = Except.ok () ∧
    lookupKey (copyRun demoHeader 10 11).2.objects 11 = some demoHandle ∧
    lookupKey (copyRun demoHeader 10 11).2.objects 10 = some demoHandle ∧
    (copyRun demoHeader 10 11).2.chunks = demoHeader.chunks ∧
    actualSize (copyRun demoHeader 10 11).2 = actualSize demoHeader :=
  (copy_semantics demoHeader 10 11).2.2 demoHandle (by decide) (by decide)

theorem copy_dest_check_first_witness :
    (copyRun demoHeaderD 10 11).1 = Except.error RErr.alreadyExists :=
  (copy_dest_check_first demoHeaderD 10 11).1 (by decide)

theorem collectCorrupt_ok (read : Chunk → ReadRes) (hash : Bytes → Nat) :
    ∀ cs : List Chunk, (∀ c ∈ cs, read c ≠ ReadRes.storeErr) →
      ∃ r, collectCorrupt read hash cs = Except.ok r ∧
        ∀ x, x ∈ r ↔ ∃ c ∈ cs, c.hash = x ∧ corruptB read hash c = true := by
  intro cs
  induction cs with
  | nil =>
    intro _
    exact ⟨[], rfl, by simp⟩
  | cons c rest ih =>
    intro hno
    obtain ⟨r, hr, hspec⟩ := ih (fun c2 hc2 => hno c2 (List.mem_cons_of_mem _ hc2))
    cases hrc : read c with
    | storeErr => exact absurd hrc (hno c (List.mem_cons_self _ _))
    | invalidData =>
      refine ⟨c.hash :: r, by simp [collectCorrupt, hrc, hr], fun x => ?_⟩
      rw [List.mem_cons, hspec x]
      constructor
      · rintro (rfl | ⟨c2, hc2, hhash, hcor⟩)
        · exact ⟨c, List.mem_cons_self _ _, rfl, by simp [corruptB, hrc]⟩
        · exact ⟨c2, List.mem_cons_of_mem _ hc2, hhash, hcor⟩
      · rintro ⟨c2, hc2, hhash, hcor⟩
        rcases List.mem_cons.mp hc2 with rfl | hc2
        · exact Or.inl hhash.symm
        · exact Or.inr ⟨c2, hc2, hhash, hcor⟩
    | ok d =>
      by_cases hcond : d.length ≠ c.size ∨ hash d ≠ c.hash
      · have hcor : corruptB read hash c = true := by
          unfold corruptB
          rw [hrc]
          rcases hcond with h1 | h1 <;> simp [h1]
        refine ⟨c.hash :: r, by simp [collectCorrupt, hrc, hr, hcond], fun x => ?_⟩
        rw [List.mem_cons, hspec x]
        constructor
        · rintro (rfl | ⟨c2, hc2, hhash, hcor2⟩)
          · exact ⟨c, List.mem_cons_self _ _, rfl, hcor⟩
          · exact ⟨c2, List.mem_cons_of_mem _ hc2, hhash, hcor2⟩
        · rintro ⟨c2, hc2, hhash, hcor2⟩
          rcases List.mem_cons.mp hc2 with rfl | hc2
          · exact Or.inl hhash.symm
          · exact Or.inr ⟨c2, hc2, hhash, hcor2⟩
      · have hcor : corruptB read hash c = false := by
          unfold corruptB
          rw [hrc]
          push_neg at hcond
          simp [hcond.1, hcond.2]
        refine ⟨r, by simp [collectCorrupt, hrc, hr, hcond], fun x => ?_⟩
        rw [hspec x]
        constructor
        · rintro ⟨c2, hc2, hhash, hcor2⟩
          exact ⟨c2, List.mem_cons_of_mem _ hc2, hhash, hcor2⟩
        · rintro ⟨c2, hc2, hhash, hcor2⟩
          rcases List.mem_cons.mp hc2 with rfl | hc2
          · rw [hcor] at hcor2
            exact Bool.noConfusion hcor2
          · exact ⟨c2, hc2, hhash, hcor2⟩

/-- C8: absent store errors, `verify` returns exactly the keys whose object
has at least one corrupt chunk (corrupt as in `corruptB`), under the header
invariants that every handle chunk is a key of the chunk map and that chunk
hashes are not duplicated across distinct chunk-map keys; and when no chunk
is corrupt it returns the empty set without scanning the object map. -/
theorem verify_returns_corrupt_keys {K : Type} [DecidableEq K]
    (read : Chunk → ReadRes) (hash : Bytes → Nat) (h : RHeader K)
    (hnoerr : ∀ c ∈ h.chunks.map (fun p => p.1), read c ≠ ReadRes.storeErr)
    (hinv : ∀ kv ∈ h.objects, ∀ c ∈ kv.2.chunks, c ∈ h.chunks.map (fun p => p.1))
    (hnodup : (List.map (fun c => c.hash) (h.chunks.map (fun p => p.1))).Nodup) :
    ∃ L b, verifyRepo read hash h = Except.ok (L, b) ∧
      (∀ k, k ∈ L ↔ ∃ kv ∈ h.objects, kv.1 = k ∧
        ∃ c ∈ kv.2.chunks, corruptB read hash c = true) ∧
      ((∀ c ∈ h.chunks.map (fun p => p.1), corruptB read hash c = false) →
        L = [] ∧ b = false) := by
  obtain ⟨r, hr, hspec⟩ := collectCorrupt_ok read hash _ hnoerr
  have hinj := List.inj_on_of_nodup_map hnodup
  cases r with
  | nil =>
    refine ⟨[], false, by simp [verifyRepo, hr], fun k => ?_, fun _ => ⟨rfl, rfl⟩⟩
    simp only [List.not_mem_nil, false_iff]
    rintro ⟨kv, hkv, hk, c, hc, hcor⟩
    have hmem : c.hash ∈ ([] : List Nat) :=
      (hspec c.hash).mpr ⟨c, hinv kv hkv c hc, rfl, hcor⟩
    exact List.not_mem_nil _ hmem
  | cons x xs =>
    refine ⟨(h.objects.filter
        (fun kv => kv.2.chunks.any (fun c => (x :: xs).contains c.hash))).map
          (fun kv => kv.1), true,
      by simp [verifyRepo, hr], fun k => ?_, fun hall => ?_⟩
    · rw [List.mem_map]
      constructor
      · rintro ⟨kv, hkv, rfl⟩
        obtain ⟨hkv2, hany⟩ := List.mem_filter.mp hkv
        obtain ⟨c, hc, hcont⟩ := List.any_eq_true.mp hany
        have hmem : c.hash ∈ x :: xs := by
          obtain ⟨y, hy, hbeq⟩ := List.contains_iff_exists_mem_beq.mp hcont
          rw [beq_iff_eq] at hbeq
          rw [hbeq]
          exact hy
        obtain ⟨c2, hc2, hhash, hcor⟩ := (hspec c.hash).mp hmem
        have hceq : c2 = c := hinj hc2 (hinv kv hkv2 c hc) hhash
        exact ⟨kv, hkv2, rfl, c, hc, hceq ▸ hcor⟩
      · rintro ⟨kv, hkv, hk, c, hc, hcor⟩
        refine ⟨kv, List.mem_filter.mpr ⟨hkv, ?_⟩, hk⟩
        refine List.any_eq_true.mpr ⟨c, hc, ?_⟩
        refine List.contains_iff_exists_mem_beq.mpr
          ⟨c.hash, (hspec c.hash).mpr ⟨c, hinv kv hkv c hc, rfl, hcor⟩, ?_⟩
        exact beq_iff_eq.mpr rfl
    · exfalso
      obtain ⟨c2, hc2, _, hcor⟩ := (hspec x).mp (List.mem_cons_self _ _)
      rw [hall c2 hc2] at hcor
      exact Bool.noConfusion hcor

theorem verify_returns_corrupt_keys_witness :
    ∃ L b, verifyRepo demoRead demoHash demoHeaderV = Except.ok (L, b) ∧
      (∀ k, k ∈ L ↔ ∃ kv ∈ demoHeaderV.objects, kv.1 = k ∧
        ∃ c ∈ kv.2.chunks, corruptB demoRead demoHash c = true) ∧
      ((∀ c ∈ demoHeaderV.chunks.map (fun p => p.1),
          corruptB demoRead demoHash c = false) →
        L = [] ∧ b = false) :=
  verify_returns_corrupt_keys demoRead demoHash demoHeaderV
    (by decide) (by decide) (by decide)

end AcidStore
